import Mathlib

/-!
Shallow embedding of the price-list aggregation and search pipeline
(`aggregate_prices.py` and `search_prices.py`).

Modelling conventions:
* A spreadsheet cell is `Val`: a string, an integer, or null (pandas `NaN`).
  The numeric fragment is restricted to integers, which is what the claims
  exercise; `toString` on `Val.num` mirrors `astype(str)` on an int64 column.
* A `Sheet` is one named table of a workbook: a header row of column names
  followed by data rows.  `readFrame` mirrors `pd.read_excel` on one sheet:
  each data row is aligned to the header, missing trailing cells become null.
  (Rows wider than the header — which pandas would turn into unnamed columns —
  are outside the modelled fragment and are truncated.)
* An `XFile` is one file of the source directory: its base name plus its
  parsed content; `Except.error` at the outer level models a file that fails
  to open, at the inner level a sheet that fails to parse.
* Excel serialisation round-trips (`to_excel` then `read_excel`) are modelled
  as the identity on `Frame`.
* Python string lowering is modelled per character with `Char.toLower`
  (faithful on the ASCII fragment used throughout).
-/

/-- Value of one spreadsheet cell: a string, an integer, or null (`NaN`). -/
inductive Val where
  | str (s : String)
  | num (n : Int)
  | null
deriving DecidableEq

/-- Text representation of a cell, as produced by pandas `astype(str)`:
strings are unchanged, integers print in decimal, and a null (`NaN`) cell
renders as the literal text `nan`.  (The source's comment claims NaNs are
"filled with empty strings", but `astype(str)` actually yields `'nan'`.) -/
def cellToStr : Val → String
  | Val.str s => s
  | Val.num n => toString n
  | Val.null => "nan"

/-- Lower-cased character list of a string (ASCII-faithful model of
Python case-insensitive comparison). -/
def lowerChars (s : String) : List Char := s.toList.map Char.toLower

/-- Boolean test that `q` is a leading segment of `t`. -/
def leadsWith : List Char → List Char → Bool
  | [], _ => true
  | _ :: _, [] => false
  | c :: q, d :: t => c == d && leadsWith q t

/-- Boolean test that `q` occurs as a contiguous segment somewhere in `t`. -/
def occursIn (q t : List Char) : Bool :=
  leadsWith q t ||
    match t with
    | [] => false
    | _ :: t' => occursIn q t'

/-- Case-insensitive substring test: does `pat` occur in `text`, ignoring
case?  This models `str.contains(pat, case=False)` for patterns that are
regex-literal (no metacharacters). -/
def ciContains (text pat : String) : Bool :=
  occursIn (lowerChars pat) (lowerChars text)

/-- Case-sensitive test that `name` ends with `ext`; models POSIX `glob`
matching of a pattern `*ext` (glob patterns are case-sensitive on
case-sensitive file systems). -/
def endsIn (name ext : String) : Bool :=
  leadsWith ext.toList.reverse name.toList.reverse

/-- One sheet of a workbook: its name, its header row of column names, and
its data rows. -/
structure Sheet where
  name : String
  header : List String
  rows : List (List Val)

/-- One file of the source directory: its base name and its parsed content.
The outer `Except` models a file that fails to open entirely; each inner
`Except` models a sheet that fails to parse. -/
structure XFile where
  name : String
  sheets : Except String (List (Except String Sheet))

/-- A pandas DataFrame: an ordered list of column names and the data rows,
each row listing the cell values in column order. -/
structure Frame where
  cols : List String
  rows : List (List Val)
deriving DecidableEq

/-- Reading one sheet with `pd.read_excel`: the header row gives the column
names and every data row is aligned to the header, absent cells read as
null (`NaN`). -/
def readFrame (s : Sheet) : Frame :=
  { cols := s.header,
    rows := s.rows.map (fun r => (List.range s.header.length).map (fun j => r.getD j Val.null)) }

/-- Pandas `df.empty`: true when the frame has no rows or no columns. -/
def Frame.isEmptyDf (f : Frame) : Bool :=
  f.rows.isEmpty || f.cols.isEmpty

/-- Lookup of a row's cell by column name (first matching column), walking
the column list and the row together; absent columns read as null. -/
def rowVal : List String → List Val → String → Val
  | [], _, _ => Val.null
  | _ :: _, [], _ => Val.null
  | c' :: cs, v :: vs, c => if c' == c then v else rowVal cs vs c

/-- Replace the cell of the first column named `c` with `x` (positional
helper for column assignment on one row). -/
def setByName : List String → List Val → String → Val → List Val
  | _, [], _, _ => []
  | [], row, _, _ => row
  | c' :: cs, v :: vs, c, x => if c' == c then x :: vs else v :: setByName cs vs c x

/-- Map with the element's position, starting at index `k`. -/
def mapIdxFrom (k : Nat) (g : Nat → α → β) : List α → List β
  | [] => []
  | a :: as => g k a :: mapIdxFrom (k + 1) g as

/-- Map with the element's 0-based position. -/
def mapWithIdx (g : Nat → α → β) (l : List α) : List β := mapIdxFrom 0 g l

/-- Pandas column assignment `df[c] = v` where `v i` is the value for the
row at position `i` (the default RangeIndex): if column `c` exists its
values are overwritten in place, otherwise the column is appended at the
end. -/
def Frame.assign (f : Frame) (c : String) (v : Nat → Val) : Frame :=
  if f.cols.contains c then
    { cols := f.cols, rows := mapWithIdx (fun i r => setByName f.cols r c (v i)) f.rows }
  else
    { cols := f.cols ++ [c], rows := mapWithIdx (fun i r => r ++ [v i]) f.rows }

/-- Row tagging of one sheet's frame, as in the source:
`df[source_file] = basename; df[sheet_name] = name; df[row_number] = df.index + 2`. -/
def tagFrame (baseName : String) (sheetName : String) (f : Frame) : Frame :=
  ((f.assign "source_file" (fun _ => Val.str baseName)).assign
      "sheet_name" (fun _ => Val.str sheetName)).assign
    "row_number" (fun i => Val.num ((i : Int) + 2))

/-- File discovery: the three glob patterns of the source, in order
(`*.xlsx`, then `*.xls`, then `*.XLS`), each matched case-sensitively. -/
def discoverFiles (contents : List XFile) : List XFile :=
  contents.filter (fun f => endsIn f.name ".xlsx") ++
    contents.filter (fun f => endsIn f.name ".xls") ++
    contents.filter (fun f => endsIn f.name ".XLS")

/-- Per-file processing of the sheets of one opened workbook: an unreadable
sheet is skipped (its error is logged), an empty frame is skipped, and every
remaining sheet's frame is tagged with its provenance. -/
def sheetFrames (baseName : String) (sheets : List (Except String Sheet)) : List Frame :=
  sheets.filterMap (fun e =>
    match e with
    | Except.error _ => none
    | Except.ok s =>
        let df := readFrame s
        if df.isEmptyDf then none else some (tagFrame baseName s.name df))

/-- Processing of one discovered file: a file that fails to open contributes
nothing (its error is logged), otherwise its sheets are processed. -/
def fileFrames (f : XFile) : List Frame :=
  match f.sheets with
  | Except.error _ => []
  | Except.ok ss => sheetFrames f.name ss

/-- The list `all_data` of the source: every tagged frame extracted from the
discovered files, in processing order. -/
def allData (contents : List XFile) : List Frame :=
  (discoverFiles contents).flatMap fileFrames

/-- Column labels of `pd.concat(frames, sort=False)`: the union of all
frames' columns, each column in the order it is first encountered. -/
def unionCols (frames : List Frame) : List String :=
  frames.foldl (fun acc fr => acc ++ fr.cols.filter (fun c => !acc.contains c)) []

/-- Pandas `pd.concat(frames, ignore_index=True, sort=False)`: rows are
stacked in order, each row re-indexed to the union of the columns, with
null in the columns absent from its own frame. -/
def concatFrames (frames : List Frame) : Frame :=
  let cols := unionCols frames
  { cols := cols,
    rows := frames.flatMap (fun fr => fr.rows.map (fun r => cols.map (fun c => rowVal fr.cols r c))) }

/-- The three provenance column names, in the fixed order used by the
source's `source_cols` list. -/
def provNames : List String := ["source_file", "sheet_name", "row_number"]

/-- Column re-ordering of the source: remove the provenance columns from
their positions and prepend them, then select the columns in that order. -/
def reorderCols (f : Frame) : Frame :=
  let cols := provNames ++ f.cols.filter (fun c => !provNames.contains c)
  { cols := cols,
    rows := f.rows.map (fun r => cols.map (fun c => rowVal f.cols r c)) }

/-- Outcome of one aggregation run: no files discovered, no data extracted,
or an output table written; each constructor carries the message printed. -/
inductive AggResult where
  | noFiles (msg : String)
  | noData (msg : String)
  | output (table : Frame) (msg : String)
deriving DecidableEq

/-- The aggregator `aggregate_price_lists(price_dir, output_file)`: discover
the spreadsheet files of the directory, extract and tag every readable
non-empty sheet, concatenate, re-order the columns, and write the result. -/
def aggregate_price_lists (price_dir : String) (contents : List XFile) : AggResult :=
  if (discoverFiles contents).isEmpty then
    AggResult.noFiles ("No Excel files found in the directory: " ++ price_dir)
  else if (allData contents).isEmpty then
    AggResult.noData "No data was extracted from any of the files."
  else
    AggResult.output (reorderCols (concatFrames (allData contents)))
      ("A total of " ++ toString (reorderCols (concatFrames (allData contents))).rows.length ++
        " rows have been written.")

/-- The aggregator script's top level: a missing price directory exits with
code 1; otherwise `aggregate_price_lists` runs to completion and the process
exits with code 0 (the function returns in every branch). -/
def aggregateScript (dirExists : Bool) (price_dir : String) (contents : List XFile) :
    Nat × Option AggResult :=
  if dirExists then (0, some (aggregate_price_lists price_dir contents)) else (1, none)

/-- Characters that are metacharacters of Python regular expressions.  The
source passes the raw query to `str.contains`, whose default is
`regex=True`, so the query is interpreted as a regex pattern; on a pattern
free of these characters, regex search coincides with plain substring
search. -/
def regexMeta : List Char :=
  ['.', '^', '$', '*', '+', '?', '\x7b', '\x7d', '[', ']', '\\', '|', '(', ')']

/-- A query that contains no regex metacharacter, so that the source's
regex-based matching behaves as a plain substring test. -/
def isLiteralPattern (q : String) : Bool :=
  q.toList.all (fun c => !regexMeta.contains c)

/-- Parenthesis scan underlying the modelled fragment of `re.compile`:
`d` open groups so far; a closing parenthesis with no open group, or a
pattern ending with an open group, is a compile error. -/
def parenScan : List Char → Nat → Bool
  | [], d => d == 0
  | c :: cs, d =>
      if c == '(' then parenScan cs (d + 1)
      else if c == ')' then
        match d with
        | 0 => false
        | d' + 1 => parenScan cs d'
      else parenScan cs d

/-- Modelled fragment of Python `re.compile` applied to the query: a
pattern with unbalanced parentheses raises `re.error` (e.g. `missing ),
unterminated subpattern`); the fragment is faithful for patterns whose only
metacharacters are parentheses, in particular for every literal pattern. -/
def reCompiles (q : String) : Bool := parenScan q.toList 0

/-- Match of the query against one cell, as the source computes it:
`astype(str)` then a case-insensitive containment test (`case=False`); a
null cell has been turned into the text `nan` by `astype(str)` before the
test, so it takes part in matching. -/
def cellMatches (q : String) (v : Val) : Bool := ciContains (cellToStr v) q

/-- Row mask of the source: `mask.any(axis=1)` — the row matches when any
of its cells matches the query. -/
def rowMatches (q : String) (r : List Val) : Bool := r.any (cellMatches q)

/-- The selected rows: `df[mask.any(axis=1)]` keeps exactly the rows whose
mask is true, in order. -/
def searchRows (q : String) (t : Frame) : List (List Val) :=
  t.rows.filter (rowMatches q)

/-- Outcome of one search run.  `uncaughtRegexError` models an exception
escaping uncaught from the matching step (a raw traceback); the other
constructors carry the messages printed. -/
inductive SearchOutcome where
  | missingFile (msgs : List String)
  | readError (msg : String)
  | uncaughtRegexError (err : String)
  | noResults
  | results (rows : List (List Val))
deriving DecidableEq

/-- The search component `search_price_list(query, search_file)`.  The
`file` argument models the file system: `none` when the aggregated file
does not exist, `some (Except.error e)` when reading it fails, and
`some (Except.ok t)` when it loads as the table `t`.  The matching step
applies the query as a regex pattern: a query that does not compile makes
the raw `re.error` escape uncaught. -/
def search_price_list (query : String) (search_file : String)
    (file : Option (Except String Frame)) : SearchOutcome :=
  match file with
  | none =>
      SearchOutcome.missingFile
        ["Error: The aggregated price list file \x27" ++ search_file ++ "\x27 was not found.",
         "Please run the \x27aggregate_prices.py\x27 script first."]
  | some (Except.error e) =>
      SearchOutcome.readError ("Error reading the Excel file: " ++ e)
  | some (Except.ok t) =>
      if reCompiles query then
        let rs := searchRows query t
        if rs.isEmpty then SearchOutcome.noResults else SearchOutcome.results rs
      else
        SearchOutcome.uncaughtRegexError ("re.error: unbalanced parenthesis in pattern " ++ query)

/-- Exit status of the search script: 1 for a missing aggregated file, a
read failure, or an uncaught exception; 0 otherwise. -/
def searchExitCode : SearchOutcome → Nat
  | SearchOutcome.missingFile _ => 1
  | SearchOutcome.readError _ => 1
  | SearchOutcome.uncaughtRegexError _ => 1
  | SearchOutcome.noResults => 0
  | SearchOutcome.results _ => 0

/-- Matching rule in the words of the specification: a null or empty cell
never matches; any other cell matches when its text representation contains
the query as a case-insensitive substring. -/
def specCellMatches (q : String) (v : Val) : Bool :=
  match v with
  | Val.null => false
  | Val.str s => if s.isEmpty then false else ciContains s q
  | Val.num n => ciContains (toString n) q

/-- Row matching rule in the words of the specification: some cell of the
row matches, nulls and empties never doing so. -/
def specRowMatches (q : String) (r : List Val) : Bool := r.any (specCellMatches q)

/-- Extension test in the words of the claim on discovery: the file name's
extension is `.xls` or `.xlsx` in any letter-casing. -/
def hasSpreadsheetExtCI (name : String) : Bool :=
  endsIn (String.mk (lowerChars name)) ".xls" || endsIn (String.mk (lowerChars name)) ".xlsx"

/-- The sheets of one file that the aggregator actually reads: none when
the file fails to open; otherwise the parseable sheets whose frames are
non-empty. -/
def readableSheets (f : XFile) : List Sheet :=
  match f.sheets with
  | Except.error _ => []
  | Except.ok ss =>
      ss.filterMap (fun e =>
        match e with
        | Except.error _ => none
        | Except.ok s => if (readFrame s).isEmptyDf then none else some s)

/-- The successfully read sheets across the discovered files, in processing
order, each paired with its file's base name. -/
def processedSheets (contents : List XFile) : List (String × Sheet) :=
  (discoverFiles contents).flatMap (fun f => (readableSheets f).map (fun s => (f.name, s)))

/-- The header-aligned data rows of a sheet (what `read_excel` yields). -/
def normRows (s : Sheet) : List (List Val) := (readFrame s).rows

/-- Expected value of the aggregated cell in column `c` for the row at
0-based position `i` (with aligned cells `r`) of sheet `s` read from file
`fn`: the three provenance columns carry the provenance data, every other
column carries the sheet's own cell. -/
def taggedVal (fn : String) (s : Sheet) (i : Nat) (r : List Val) (c : String) : Val :=
  if c = "source_file" then Val.str fn
  else if c = "sheet_name" then Val.str s.name
  else if c = "row_number" then Val.num ((i : Int) + 2)
  else rowVal s.header r c

/-- The aggregated table's column list: the three provenance columns first,
then the union of the tagged frames' remaining columns. -/
def aggCols (contents : List XFile) : List String :=
  provNames ++ (unionCols (allData contents)).filter (fun c => !provNames.contains c)

/-- Payload columns in the words of the specification: the union of the
processed sheets' header names, each in the order first encountered, with
the provenance names excluded. -/
def payloadCols (contents : List XFile) : List String :=
  ((processedSheets contents).foldl
      (fun acc fs => acc ++ fs.2.header.filter (fun c => !acc.contains c)) []).filter
    (fun c => !provNames.contains c)

/-- Number of cells of the readable sheets that contain the query under the
specification's matching rule (null and empty cells never containing it). -/
def specOccurrenceCount (q : String) (contents : List XFile) : Nat :=
  ((processedSheets contents).flatMap
      (fun fs => (normRows fs.2).flatMap (fun r => r.filter (specCellMatches q)))).length

theorem contains_true_iff (l : List String) (c : String) : l.contains c = true ↔ c ∈ l :=
  List.elem_iff

theorem contains_false_iff (l : List String) (c : String) : l.contains c = false ↔ ¬ c ∈ l := by
  constructor
  · intro h hm
    have := (contains_true_iff l c).mpr hm
    rw [this] at h
    cases h
  · intro h
    cases hb : l.contains c with
    | false => rfl
    | true => exact absurd ((contains_true_iff l c).mp hb) h

theorem mapIdxFrom_length (k : Nat) (g : Nat → α → β) (l : List α) :
    (mapIdxFrom k g l).length = l.length := by
  induction l generalizing k with
  | nil => rfl
  | cons a as ih => simp [mapIdxFrom, ih]

theorem mapWithIdx_length (g : Nat → α → β) (l : List α) :
    (mapWithIdx g l).length = l.length :=
  mapIdxFrom_length 0 g l

theorem mapIdxFrom_getElem? (k : Nat) (g : Nat → α → β) (l : List α) (i : Nat) :
    (mapIdxFrom k g l)[i]? = (l[i]?).map (g (k + i)) := by
  induction l generalizing k i with
  | nil => simp [mapIdxFrom]
  | cons a as ih =>
    cases i with
    | zero => simp [mapIdxFrom]
    | succ n =>
      have harith : k + 1 + n = k + (n + 1) := by omega
      simp [mapIdxFrom, ih (k + 1) n, harith]

theorem mapWithIdx_getElem? (g : Nat → α → β) (l : List α) (i : Nat) :
    (mapWithIdx g l)[i]? = (l[i]?).map (g i) := by
  have := mapIdxFrom_getElem? 0 g l i
  simpa [mapWithIdx] using this

theorem mem_mapIdxFrom (k : Nat) (g : Nat → α → β) (l : List α) (x : β)
    (h : x ∈ mapIdxFrom k g l) : ∃ i r, l[i]? = some r ∧ x = g (k + i) r := by
  induction l generalizing k with
  | nil => cases h
  | cons a as ih =>
    rcases List.mem_cons.mp h with heq | hm
    · exact ⟨0, a, by simp, by simpa using heq⟩
    · obtain ⟨i, r, hir, hx⟩ := ih (k + 1) hm
      exact ⟨i + 1, r, by simpa using hir, by rw [hx]; congr 1; omega⟩

theorem mem_mapWithIdx (g : Nat → α → β) (l : List α) (x : β)
    (h : x ∈ mapWithIdx g l) : ∃ i r, l[i]? = some r ∧ x = g i r := by
  obtain ⟨i, r, hir, hx⟩ := mem_mapIdxFrom 0 g l x h
  exact ⟨i, r, hir, by simpa using hx⟩

theorem getElem?_mem_list (l : List α) (i : Nat) (a : α) (h : l[i]? = some a) : a ∈ l :=
  List.mem_iff_getElem?.mpr ⟨i, h⟩

theorem rowVal_not_mem (cs : List String) (r : List Val) (c : String) (h : ¬ c ∈ cs) :
    rowVal cs r c = Val.null := by
  induction cs generalizing r with
  | nil => cases r <;> rfl
  | cons c' cs ih =>
    cases r with
    | nil => rfl
    | cons v vs =>
      have hne : (c' == c) = false :=
        beq_eq_false_iff_ne.mpr (fun he => h (he ▸ List.mem_cons_self c' cs))
      simp only [rowVal, hne, Bool.false_eq_true, if_false]
      exact ih vs (fun hm => h (List.mem_cons_of_mem c' hm))

theorem rowVal_map_self (cs : List String) (g : String → Val) (c : String) (h : c ∈ cs) :
    rowVal cs (cs.map g) c = g c := by
  induction cs with
  | nil => cases h
  | cons c' cs ih =>
    by_cases he : c' = c
    · subst he
      simp [rowVal]
    · have hb : (c' == c) = false := beq_eq_false_iff_ne.mpr he
      simp only [List.map_cons, rowVal, hb, Bool.false_eq_true, if_false]
      rcases List.mem_cons.mp h with heq | hm
      · exact absurd heq.symm he
      · exact ih hm

theorem rowVal_append (cs cs₂ : List String) (r r₂ : List Val) (c : String)
    (hlen : r.length = cs.length) :
    rowVal (cs ++ cs₂) (r ++ r₂) c =
      if c ∈ cs then rowVal cs r c else rowVal cs₂ r₂ c := by
  induction cs generalizing r with
  | nil =>
    cases r with
    | nil => simp
    | cons v vs => simp at hlen
  | cons c' cs ih =>
    cases r with
    | nil => simp at hlen
    | cons v vs =>
      have hlen' : vs.length = cs.length := by simpa using hlen
      by_cases he : c' = c
      · have hb : (c' == c) = true := beq_iff_eq.mpr he
        have hmem : c ∈ c' :: cs := List.mem_cons.mpr (Or.inl he.symm)
        simp [rowVal, hb, hmem]
      · have hb : (c' == c) = false := beq_eq_false_iff_ne.mpr he
        have hnotc : (c ∈ c' :: cs) ↔ (c ∈ cs) := by
          constructor
          · intro hcm
            rcases List.mem_cons.mp hcm with heq | hm
            · exact absurd heq.symm he
            · exact hm
          · exact List.mem_cons_of_mem c'
        calc rowVal ((c' :: cs) ++ cs₂) ((v :: vs) ++ r₂) c
            = rowVal (cs ++ cs₂) (vs ++ r₂) c := by
              simp [List.cons_append, rowVal, hb]
          _ = if c ∈ cs then rowVal cs vs c else rowVal cs₂ r₂ c := ih vs hlen'
          _ = if c ∈ c' :: cs then rowVal (c' :: cs) (v :: vs) c else rowVal cs₂ r₂ c := by
              by_cases hc : c ∈ cs
              · rw [if_pos hc, if_pos (hnotc.mpr hc)]
                simp [rowVal, hb]
              · rw [if_neg hc, if_neg (fun hx => hc (hnotc.mp hx))]

theorem setByName_length (cs : List String) (r : List Val) (c : String) (x : Val) :
    (setByName cs r c x).length = r.length := by
  induction cs generalizing r with
  | nil => cases r <;> rfl
  | cons c' cs ih =>
    cases r with
    | nil => rfl
    | cons v vs =>
      by_cases he : c' = c
      · simp [setByName, he]
      · have hb : (c' == c) = false := beq_eq_false_iff_ne.mpr he
        simp [setByName, hb, ih vs]

theorem rowVal_setByName_self (cs : List String) (r : List Val) (c : String) (x : Val)
    (hm : c ∈ cs) (hlen : cs.length ≤ r.length) :
    rowVal cs (setByName cs r c x) c = x := by
  induction cs generalizing r with
  | nil => cases hm
  | cons c' cs ih =>
    cases r with
    | nil => simp at hlen
    | cons v vs =>
      by_cases he : c' = c
      · have hb : (c' == c) = true := beq_iff_eq.mpr he
        simp [setByName, hb, rowVal]
      · have hb : (c' == c) = false := beq_eq_false_iff_ne.mpr he
        have hm' : c ∈ cs := by
          rcases List.mem_cons.mp hm with heq | h
          · exact absurd heq.symm he
          · exact h
        simp only [setByName, hb, Bool.false_eq_true, if_false, rowVal]
        exact ih vs hm' (by simpa using Nat.le_of_succ_le_succ (by simpa using hlen))

theorem rowVal_setByName_ne (cs : List String) (r : List Val) (c' c : String) (x : Val)
    (hne : c' ≠ c) :
    rowVal cs (setByName cs r c' x) c = rowVal cs r c := by
  induction cs generalizing r with
  | nil => cases r <;> rfl
  | cons c₀ cs ih =>
    cases r with
    | nil => rfl
    | cons v vs =>
      by_cases h0 : c₀ = c'
      · have hb : (c₀ == c') = true := beq_iff_eq.mpr h0
        have hbc : (c₀ == c) = false :=
          beq_eq_false_iff_ne.mpr (fun he => hne (h0.symm.trans he))
        simp [setByName, rowVal, hb, hbc]
      · have hb : (c₀ == c') = false := beq_eq_false_iff_ne.mpr h0
        simp only [setByName, hb, Bool.false_eq_true, if_false, rowVal]
        by_cases hc : c₀ = c
        · simp [beq_iff_eq.mpr hc]
        · simp [beq_eq_false_iff_ne.mpr hc, ih vs]


theorem assign_rows_length (f : Frame) (c : String) (v : Nat → Val) :
    (f.assign c v).rows.length = f.rows.length := by
  unfold Frame.assign
  by_cases hc : f.cols.contains c = true
  · rw [if_pos hc]
    exact mapWithIdx_length _ _
  · rw [if_neg hc]
    exact mapWithIdx_length _ _

theorem mem_assign_cols_self (f : Frame) (c : String) (v : Nat → Val) :
    c ∈ (f.assign c v).cols := by
  unfold Frame.assign
  by_cases hc : f.cols.contains c = true
  · rw [if_pos hc]
    exact (contains_true_iff f.cols c).mp hc
  · rw [if_neg hc]
    exact List.mem_append.mpr (Or.inr (List.mem_singleton.mpr rfl))

theorem mem_assign_cols_of (f : Frame) (c : String) (v : Nat → Val) (c₀ : String)
    (h : c₀ ∈ f.cols) : c₀ ∈ (f.assign c v).cols := by
  unfold Frame.assign
  by_cases hc : f.cols.contains c = true
  · rw [if_pos hc]
    exact h
  · rw [if_neg hc]
    exact List.mem_append.mpr (Or.inl h)

theorem assign_cols_ext (f : Frame) (c : String) (v : Nat → Val) :
    ∃ e, (f.assign c v).cols = f.cols ++ e ∧ ∀ x ∈ e, x = c := by
  by_cases hc : f.cols.contains c = true
  · refine ⟨[], ?_, by simp⟩
    unfold Frame.assign
    rw [if_pos hc]
    simp
  · refine ⟨[c], ?_, ?_⟩
    · unfold Frame.assign
      rw [if_neg hc]
    · intro x hx
      simpa using hx

theorem assign_getElem (f : Frame) (c' : String) (v : Nat → Val) (i : Nat) (r : List Val)
    (hr : f.rows[i]? = some r) (hw : r.length = f.cols.length) :
    ∃ r', (f.assign c' v).rows[i]? = some r' ∧
      r'.length = (f.assign c' v).cols.length ∧
      ∀ c, rowVal (f.assign c' v).cols r' c = if c' = c then v i else rowVal f.cols r c := by
  by_cases hc : f.cols.contains c' = true
  · have hcols : (f.assign c' v).cols = f.cols := by
      unfold Frame.assign
      rw [if_pos hc]
    have hrows : (f.assign c' v).rows =
        mapWithIdx (fun j s => setByName f.cols s c' (v j)) f.rows := by
      unfold Frame.assign
      rw [if_pos hc]
    refine ⟨setByName f.cols r c' (v i), ?_, ?_, ?_⟩
    · rw [hrows, mapWithIdx_getElem?, hr]
      rfl
    · rw [hcols, setByName_length]
      exact hw
    · intro c
      rw [hcols]
      by_cases he : c' = c
      · rw [if_pos he, ← he]
        exact rowVal_setByName_self f.cols r c' (v i)
          ((contains_true_iff f.cols c').mp hc) (le_of_eq hw.symm)
      · rw [if_neg he]
        exact rowVal_setByName_ne f.cols r c' c (v i) he
  · have hnm : ¬ c' ∈ f.cols := fun hm => hc ((contains_true_iff f.cols c').mpr hm)
    have hcols : (f.assign c' v).cols = f.cols ++ [c'] := by
      unfold Frame.assign
      rw [if_neg hc]
    have hrows : (f.assign c' v).rows = mapWithIdx (fun j s => s ++ [v j]) f.rows := by
      unfold Frame.assign
      rw [if_neg hc]
    refine ⟨r ++ [v i], ?_, ?_, ?_⟩
    · rw [hrows, mapWithIdx_getElem?, hr]
      rfl
    · rw [hcols]
      simp [hw]
    · intro c
      rw [hcols, rowVal_append f.cols [c'] r [v i] c hw]
      by_cases he : c' = c
      · have hnmc : ¬ c ∈ f.cols := he ▸ hnm
        rw [if_neg hnmc, if_pos he]
        simp [rowVal, beq_iff_eq.mpr he]
      · rw [if_neg he]
        by_cases hcm : c ∈ f.cols
        · rw [if_pos hcm]
        · rw [if_neg hcm, rowVal_not_mem f.cols r c hcm]
          simp [rowVal, beq_eq_false_iff_ne.mpr he]

theorem tag_rows_length (fn sn : String) (df : Frame) :
    (tagFrame fn sn df).rows.length = df.rows.length := by
  unfold tagFrame
  rw [assign_rows_length, assign_rows_length, assign_rows_length]

theorem tag_getElem (fn sn : String) (df : Frame) (i : Nat) (r : List Val)
    (hr : df.rows[i]? = some r) (hw : r.length = df.cols.length) :
    ∃ r', (tagFrame fn sn df).rows[i]? = some r' ∧
      ∀ c, rowVal (tagFrame fn sn df).cols r' c =
        if c = "source_file" then Val.str fn
        else if c = "sheet_name" then Val.str sn
        else if c = "row_number" then Val.num ((i : Int) + 2)
        else rowVal df.cols r c := by
  obtain ⟨r1, hr1, hl1, hv1⟩ :=
    assign_getElem df "source_file" (fun _ => Val.str fn) i r hr hw
  obtain ⟨r2, hr2, hl2, hv2⟩ :=
    assign_getElem (df.assign "source_file" (fun _ => Val.str fn))
      "sheet_name" (fun _ => Val.str sn) i r1 hr1 hl1
  obtain ⟨r3, hr3, hl3, hv3⟩ :=
    assign_getElem ((df.assign "source_file" (fun _ => Val.str fn)).assign
        "sheet_name" (fun _ => Val.str sn))
      "row_number" (fun j => Val.num ((j : Int) + 2)) i r2 hr2 hl2
  refine ⟨r3, hr3, fun c => ?_⟩
  have hstep : rowVal (tagFrame fn sn df).cols r3 c =
      if "row_number" = c then Val.num ((i : Int) + 2)
      else if "sheet_name" = c then Val.str sn
      else if "source_file" = c then Val.str fn
      else rowVal df.cols r c := by
    rw [show (tagFrame fn sn df).cols =
        (((df.assign "source_file" (fun _ => Val.str fn)).assign
            "sheet_name" (fun _ => Val.str sn)).assign
          "row_number" (fun j => Val.num ((j : Int) + 2))).cols from rfl]
    rw [hv3 c]
    by_cases h3 : "row_number" = c
    · rw [if_pos h3, if_pos h3]
    · rw [if_neg h3, if_neg h3, hv2 c]
      by_cases h2 : "sheet_name" = c
      · rw [if_pos h2, if_pos h2]
      · rw [if_neg h2, if_neg h2, hv1 c]
  rw [hstep]
  by_cases h1 : c = "source_file"
  · subst h1
    rfl
  · by_cases h2 : c = "sheet_name"
    · subst h2
      rfl
    · by_cases h3 : c = "row_number"
      · subst h3
        rfl
      · rw [if_neg (fun h => h3 h.symm), if_neg (fun h => h2 h.symm),
          if_neg (fun h => h1 h.symm), if_neg h1, if_neg h2, if_neg h3]

theorem tag_cols_ext (fn sn : String) (df : Frame) :
    ∃ e, (tagFrame fn sn df).cols = df.cols ++ e ∧ ∀ x ∈ e, x ∈ provNames := by
  obtain ⟨e1, h1, m1⟩ := assign_cols_ext df "source_file" (fun _ => Val.str fn)
  obtain ⟨e2, h2, m2⟩ := assign_cols_ext (df.assign "source_file" (fun _ => Val.str fn))
    "sheet_name" (fun _ => Val.str sn)
  obtain ⟨e3, h3, m3⟩ := assign_cols_ext ((df.assign "source_file" (fun _ => Val.str fn)).assign
      "sheet_name" (fun _ => Val.str sn)) "row_number" (fun j => Val.num ((j : Int) + 2))
  refine ⟨e1 ++ e2 ++ e3, ?_, ?_⟩
  · rw [show (tagFrame fn sn df).cols =
        (((df.assign "source_file" (fun _ => Val.str fn)).assign
            "sheet_name" (fun _ => Val.str sn)).assign
          "row_number" (fun j => Val.num ((j : Int) + 2))).cols from rfl]
    rw [h3, h2, h1, List.append_assoc, List.append_assoc, List.append_assoc]
  · intro x hx
    rcases List.mem_append.mp hx with hx' | hx3
    · rcases List.mem_append.mp hx' with hx1 | hx2
      · rw [m1 x hx1]
        simp [provNames]
      · rw [m2 x hx2]
        simp [provNames]
    · rw [m3 x hx3]
      simp [provNames]

theorem prov_mem_tag_cols (fn sn : String) (df : Frame) (c : String) (hc : c ∈ provNames) :
    c ∈ (tagFrame fn sn df).cols := by
  have hsf : "source_file" ∈ (tagFrame fn sn df).cols := by
    unfold tagFrame
    exact mem_assign_cols_of _ _ _ _ (mem_assign_cols_of _ _ _ _ (mem_assign_cols_self _ _ _))
  have hsn : "sheet_name" ∈ (tagFrame fn sn df).cols := by
    unfold tagFrame
    exact mem_assign_cols_of _ _ _ _ (mem_assign_cols_self _ _ _)
  have hrn : "row_number" ∈ (tagFrame fn sn df).cols := by
    unfold tagFrame
    exact mem_assign_cols_self _ _ _
  rcases List.mem_cons.mp hc with h | hc'
  · exact h ▸ hsf
  rcases List.mem_cons.mp hc' with h | hc''
  · exact h ▸ hsn
  rcases List.mem_cons.mp hc'' with h | hc'''
  · exact h ▸ hrn
  · cases hc'''

theorem readFrame_row_length (s : Sheet) (r : List Val) (h : r ∈ (readFrame s).rows) :
    r.length = (readFrame s).cols.length := by
  obtain ⟨r₀, _, rfl⟩ := List.mem_map.mp h
  simp [readFrame]

theorem mem_foldl_union_init :
    ∀ (frames : List Frame) (acc : List String) (c : String), c ∈ acc →
      c ∈ frames.foldl (fun a fr => a ++ fr.cols.filter (fun x => !a.contains x)) acc := by
  intro frames
  induction frames with
  | nil => intro acc c h; exact h
  | cons fr rest ih =>
    intro acc c h
    exact ih _ c (List.mem_append.mpr (Or.inl h))

theorem mem_unionFold :
    ∀ (frames : List Frame) (acc : List String) (fr : Frame) (c : String),
      fr ∈ frames → c ∈ fr.cols →
      c ∈ frames.foldl (fun a f => a ++ f.cols.filter (fun x => !a.contains x)) acc := by
  intro frames
  induction frames with
  | nil => intro acc fr c hfr _; cases hfr
  | cons fr₀ rest ih =>
    intro acc fr c hfr hc
    rcases List.mem_cons.mp hfr with heq | hm
    · rw [List.foldl_cons]
      apply mem_foldl_union_init
      by_cases hca : c ∈ acc
      · exact List.mem_append.mpr (Or.inl hca)
      · refine List.mem_append.mpr (Or.inr (List.mem_filter.mpr ⟨heq ▸ hc, ?_⟩))
        simpa using hca
    · rw [List.foldl_cons]
      exact ih _ fr c hm hc

theorem mem_unionCols (frames : List Frame) (fr : Frame) (c : String)
    (hfr : fr ∈ frames) (hc : c ∈ fr.cols) : c ∈ unionCols frames :=
  mem_unionFold frames [] fr c hfr hc

theorem allData_eq (contents : List XFile) :
    allData contents =
      (processedSheets contents).map (fun fs => tagFrame fs.1 fs.2.name (readFrame fs.2)) := by
  unfold allData processedSheets
  rw [List.map_flatMap]
  refine congrArg (List.flatMap _) (funext fun f => ?_)
  rw [List.map_map]
  cases hfs : f.sheets with
  | error e =>
    simp [fileFrames, readableSheets, hfs]
  | ok ss =>
    simp only [fileFrames, readableSheets, hfs]
    unfold sheetFrames
    rw [List.map_filterMap]
    refine congrArg (fun g => List.filterMap g ss) (funext fun e => ?_)
    cases e with
    | error _ => rfl
    | ok s =>
      by_cases hemp : (readFrame s).isEmptyDf = true
      · simp [hemp]
      · simp [hemp]

theorem aggregate_output_spec (p : String) (contents : List XFile) (t : Frame) (m : String)
    (h : aggregate_price_lists p contents = AggResult.output t m) :
    t.cols = aggCols contents ∧
    t.rows = (processedSheets contents).flatMap
      (fun fs => mapWithIdx (fun i r => (aggCols contents).map (taggedVal fs.1 fs.2 i r))
        (normRows fs.2)) := by
  unfold aggregate_price_lists at h
  by_cases h1 : (discoverFiles contents).isEmpty = true
  · rw [if_pos h1] at h
    cases h
  rw [if_neg h1] at h
  by_cases h2 : (allData contents).isEmpty = true
  · rw [if_pos h2] at h
    cases h
  rw [if_neg h2] at h
  injection h with ht hm
  subst ht
  constructor
  · rfl
  · have hdne : allData contents ≠ [] := fun he => h2 (by simp [he])
    have hex : ∃ fs, fs ∈ processedSheets contents := by
      rcases hps : processedSheets contents with _ | ⟨fs₀, rest⟩
      · exfalso
        apply hdne
        rw [allData_eq, hps]
        rfl
      · exact ⟨fs₀, hps ▸ List.mem_cons_self fs₀ rest⟩
    obtain ⟨fs₀, hfs₀⟩ := hex
    have htag₀ : tagFrame fs₀.1 fs₀.2.name (readFrame fs₀.2) ∈ allData contents := by
      rw [allData_eq]
      exact List.mem_map_of_mem _ hfs₀
    have hsub : ∀ c ∈ aggCols contents, c ∈ unionCols (allData contents) := by
      intro c hcm
      unfold aggCols at hcm
      rcases List.mem_append.mp hcm with hl | hr
      · exact mem_unionCols _ _ _ htag₀ (prov_mem_tag_cols _ _ _ c hl)
      · exact (List.mem_filter.mp hr).1
    have hre : (reorderCols (concatFrames (allData contents))).rows =
        (concatFrames (allData contents)).rows.map
          (fun r => (aggCols contents).map
            (fun c => rowVal (unionCols (allData contents)) r c)) := rfl
    have hco : (concatFrames (allData contents)).rows =
        (allData contents).flatMap
          (fun fr => fr.rows.map (fun r => (unionCols (allData contents)).map
            (fun c => rowVal fr.cols r c))) := rfl
    rw [hre, hco, List.map_flatMap]
    set u := unionCols (allData contents) with hu
    rw [allData_eq, List.flatMap_map]
    refine congrArg (List.flatMap _) (funext fun fs => ?_)
    rw [List.map_map]
    apply List.ext_getElem?
    intro i
    rw [List.getElem?_map, mapWithIdx_getElem?]
    cases hri : (normRows fs.2)[i]? with
    | none =>
      have hri' : (readFrame fs.2).rows[i]? = none := hri
      have hlen : (readFrame fs.2).rows.length ≤ i := by
        by_contra hlt
        push_neg at hlt
        rw [List.getElem?_eq_getElem hlt] at hri'
        cases hri'
      have htn : (tagFrame fs.1 fs.2.name (readFrame fs.2)).rows[i]? = none :=
        List.getElem?_eq_none (by rw [tag_rows_length]; exact hlen)
      rw [htn]
      rfl
    | some r =>
      have hri' : (readFrame fs.2).rows[i]? = some r := hri
      have hw : r.length = (readFrame fs.2).cols.length :=
        readFrame_row_length fs.2 r (getElem?_mem_list _ i r hri')
      obtain ⟨r', hr', hv⟩ := tag_getElem fs.1 fs.2.name (readFrame fs.2) i r hri' hw
      rw [hr']
      show some _ = some _
      congr 1
      apply List.map_congr_left
      intro c hcm
      show rowVal u
          (List.map (fun c' => rowVal (tagFrame fs.1 fs.2.name (readFrame fs.2)).cols r' c') u) c =
        taggedVal fs.1 fs.2 i r c
      rw [rowVal_map_self u _ c (hsub c hcm), hv c]
      rfl

theorem filter_union_aux :
    ∀ (ps : List (String × Sheet)) (accF accH : List String),
      accF.filter (fun c => !provNames.contains c) =
        accH.filter (fun c => !provNames.contains c) →
      (List.foldl (fun acc fr => acc ++ fr.cols.filter (fun c => !acc.contains c)) accF
          (ps.map (fun fs => tagFrame fs.1 fs.2.name (readFrame fs.2)))).filter
        (fun c => !provNames.contains c) =
      (List.foldl (fun acc fs => acc ++ fs.2.header.filter (fun c => !acc.contains c)) accH
          ps).filter (fun c => !provNames.contains c) := by
  intro ps
  induction ps with
  | nil =>
    intro accF accH hinv
    simpa using hinv
  | cons fs ps ih =>
    intro accF accH hinv
    rw [List.map_cons, List.foldl_cons, List.foldl_cons]
    apply ih
    obtain ⟨e, he, hep⟩ := tag_cols_ext fs.1 fs.2.name (readFrame fs.2)
    have hcolsr : (readFrame fs.2).cols = fs.2.header := rfl
    rw [he, hcolsr]
    rw [List.filter_append accF, List.filter_append accH, hinv]
    congr 1
    rw [List.filter_append fs.2.header e, List.filter_append]
    have he0 : List.filter (fun c => !provNames.contains c)
        (List.filter (fun c => !accF.contains c) e) = [] := by
      rw [List.filter_eq_nil_iff]
      intro a ha
      have hae : a ∈ e := (List.mem_filter.mp ha).1
      simp
      exact hep a hae
    rw [he0, List.append_nil, List.filter_filter, List.filter_filter]
    apply List.filter_congr
    intro a _
    cases hP : provNames.contains a with
    | true => simp [hP]
    | false =>
      have haF : a ∈ accF ↔ a ∈ accH := by
        constructor
        · intro hm
          have hmem : a ∈ List.filter (fun c => !provNames.contains c) accF :=
            List.mem_filter.mpr ⟨hm, by rw [hP]; rfl⟩
          rw [hinv] at hmem
          exact (List.mem_filter.mp hmem).1
        · intro hm
          have hmem : a ∈ List.filter (fun c => !provNames.contains c) accH :=
            List.mem_filter.mpr ⟨hm, by rw [hP]; rfl⟩
          rw [← hinv] at hmem
          exact (List.mem_filter.mp hmem).1
      have hceq : accF.contains a = accH.contains a := by
        cases hF : accF.contains a with
        | true =>
          exact ((contains_true_iff _ _).mpr (haF.mp ((contains_true_iff _ _).mp hF))).symm
        | false =>
          exact ((contains_false_iff _ _).mpr
            (fun hm => ((contains_false_iff _ _).mp hF) (haF.mpr hm))).symm
      rw [hceq]

theorem aggCols_eq_payload (contents : List XFile) :
    aggCols contents = provNames ++ payloadCols contents := by
  unfold aggCols payloadCols unionCols
  rw [allData_eq]
  exact congrArg (List.append provNames) (filter_union_aux (processedSheets contents) [] [] rfl)

theorem parenScan_no_paren :
    ∀ (l : List Char), (∀ c ∈ l, c ≠ '(' ∧ c ≠ ')') → ∀ d, parenScan l d = (d == 0) := by
  intro l
  induction l with
  | nil => intro _ _; rfl
  | cons c cs ih =>
    intro hl d
    obtain ⟨h1, h2⟩ := hl c (List.mem_cons_self c cs)
    have hb1 : (c == '(') = false := beq_eq_false_iff_ne.mpr h1
    have hb2 : (c == ')') = false := beq_eq_false_iff_ne.mpr h2
    show (if (c == '(') = true then parenScan cs (d + 1)
      else if (c == ')') = true then
        match d with
        | 0 => false
        | d' + 1 => parenScan cs d'
      else parenScan cs d) = (d == 0)
    rw [hb1, hb2]
    simp only [Bool.false_eq_true, if_false]
    exact ih (fun x hx => hl x (List.mem_cons_of_mem c hx)) d

theorem literal_reCompiles (q : String) (h : isLiteralPattern q = true) : reCompiles q = true := by
  unfold reCompiles
  have hl : ∀ c ∈ q.toList, c ≠ '(' ∧ c ≠ ')' := by
    intro c hc
    have hmc := (List.all_eq_true.mp h) c hc
    constructor
    · rintro rfl
      exact absurd hmc (by decide)
    · rintro rfl
      exact absurd hmc (by decide)
  rw [parenScan_no_paren q.toList hl 0]
  rfl

theorem any_eq_not_isEmpty_filter (p : α → Bool) (l : List α) :
    l.any p = !(l.filter p).isEmpty := by
  induction l with
  | nil => rfl
  | cons a l ih =>
    by_cases h : p a = true
    · simp [List.any_cons, List.filter_cons, h]
    · have hf : p a = false := by
        cases hb : p a
        · rfl
        · exact absurd hb h
      simp [List.any_cons, List.filter_cons, hf, ih]

theorem filter_unique :
    ∀ (l : List α) (w : α → List β) (x : α), x ∈ l → w x ≠ [] →
      (l.flatMap w).length = 1 →
      l.filter (fun a => !(w a).isEmpty) = [x] := by
  intro l w
  induction l with
  | nil => intro x hx; cases hx
  | cons a l ih =>
    intro x hx hnx h1
    rw [List.flatMap_cons, List.length_append] at h1
    rcases List.mem_cons.mp hx with heq | hm
    · subst heq
      have ha : 1 ≤ (w x).length := by
        rcases hw : w x with _ | ⟨b, bs⟩
        · exact absurd hw hnx
        · simp [hw]
      have hrest : (l.flatMap w).length = 0 := by omega
      have hall : ∀ b ∈ l, w b = [] :=
        List.flatMap_eq_nil_iff.mp (List.length_eq_zero.mp hrest)
      rw [List.filter_cons]
      have hpx : (!(w x).isEmpty) = true := by
        rcases hw : w x with _ | ⟨b, bs⟩
        · exact absurd hw hnx
        · rfl
      rw [if_pos hpx]
      have hfe : l.filter (fun a => !(w a).isEmpty) = [] := by
        rw [List.filter_eq_nil_iff]
        intro b hb
        simp [hall b hb]
      rw [hfe]
    · have hbmem : ∃ b, b ∈ w x := by
        rcases hw : w x with _ | ⟨b, bs⟩
        · exact absurd hw hnx
        · exact ⟨b, hw ▸ List.mem_cons_self b bs⟩
      obtain ⟨b, hb⟩ := hbmem
      have hbf : b ∈ l.flatMap w := List.mem_flatMap.mpr ⟨x, hm, hb⟩
      have hpos : 1 ≤ (l.flatMap w).length := by
        rcases hfm : l.flatMap w with _ | ⟨y, ys⟩
        · rw [hfm] at hbf
          cases hbf
        · simp [hfm]
      have hwa : (w a).length = 0 := by omega
      have hwanil : w a = [] := List.length_eq_zero.mp hwa
      rw [List.filter_cons, if_neg (by simp [hwanil])]
      exact ih x hm hnx (by omega)

theorem prov_mem_aggCols (contents : List XFile) (c : String) (hc : c ∈ provNames) :
    c ∈ aggCols contents := by
  unfold aggCols
  exact List.mem_append.mpr (Or.inl hc)

theorem outRow_prov_lookup (contents : List XFile) (fn : String) (s : Sheet) (i : Nat)
    (r : List Val) :
    rowVal (aggCols contents) ((aggCols contents).map (taggedVal fn s i r)) "source_file" =
      Val.str fn ∧
    rowVal (aggCols contents) ((aggCols contents).map (taggedVal fn s i r)) "sheet_name" =
      Val.str s.name ∧
    rowVal (aggCols contents) ((aggCols contents).map (taggedVal fn s i r)) "row_number" =
      Val.num ((i : Int) + 2) := by
  refine ⟨?_, ?_, ?_⟩ <;>
    · rw [rowVal_map_self _ _ _ (prov_mem_aggCols contents _ (by decide))]
      rfl

theorem agg_row_mem (p : String) (contents : List XFile) (t : Frame) (m : String)
    (fn : String) (s : Sheet) (i : Nat) (r : List Val)
    (h : aggregate_price_lists p contents = AggResult.output t m)
    (hmem : (fn, s) ∈ processedSheets contents)
    (hrow : (normRows s)[i]? = some r) :
    (aggCols contents).map (taggedVal fn s i r) ∈ t.rows := by
  obtain ⟨_, hrows⟩ := aggregate_output_spec p contents t m h
  rw [hrows]
  apply List.mem_flatMap.mpr
  refine ⟨(fn, s), hmem, ?_⟩
  apply getElem?_mem_list _ i
  rw [mapWithIdx_getElem?]
  show Option.map _ ((normRows s)[i]?) = _
  rw [hrow]
  rfl

theorem search_ok (q sf : String) (t : Frame) (hrc : reCompiles q = true)
    (rs : List (List Val)) (hsr : searchRows q t = rs) (hne : rs ≠ []) :
    search_price_list q sf (some (Except.ok t)) = SearchOutcome.results rs := by
  show (if reCompiles q = true then
      if (searchRows q t).isEmpty = true then SearchOutcome.noResults
      else SearchOutcome.results (searchRows q t)
    else SearchOutcome.uncaughtRegexError
      ("re.error: unbalanced parenthesis in pattern " ++ q)) = SearchOutcome.results rs
  rw [if_pos hrc, hsr]
  cases rs with
  | nil => exact absurd rfl hne
  | cons a l => rfl

/-- C1: the claim states that a row is selected exactly when some cell,
converted to text, contains the query as a case-insensitive substring, with
null/empty cells never causing a match.  The code converts null cells to the
text `nan` before matching (contradicting its own comment that NaNs are
filled with empty strings), so the aggregated row whose `note` cell is null
is selected for the query `nan` although, under the claimed rule, no cell of
that row contains `nan`. -/
theorem C1_null_cell_matches_nan :
    aggregate_price_lists "P"
        [⟨"p.xlsx", Except.ok [Except.ok ⟨"S", ["item", "note"],
          [[Val.str "bolt", Val.null]]⟩]⟩] =
      AggResult.output
        ⟨["source_file", "sheet_name", "row_number", "item", "note"],
         [[Val.str "p.xlsx", Val.str "S", Val.num 2, Val.str "bolt", Val.null]]⟩
        "A total of 1 rows have been written." ∧
    search_price_list "nan" "aggregated_pricelist.xlsx"
        (some (Except.ok
          ⟨["source_file", "sheet_name", "row_number", "item", "note"],
           [[Val.str "p.xlsx", Val.str "S", Val.num 2, Val.str "bolt", Val.null]]⟩)) =
      SearchOutcome.results
        [[Val.str "p.xlsx", Val.str "S", Val.num 2, Val.str "bolt", Val.null]] ∧
    specRowMatches "nan"
      [Val.str "p.xlsx", Val.str "S", Val.num 2, Val.str "bolt", Val.null] = false :=
  ⟨rfl, rfl, rfl⟩

/-- C2 counterexample: the directory holding only `q.xlsx` contains the
string `q` in exactly one cell of its readable sheets (cells `q` and `z`),
yet searching the aggregated table for `q` returns two rows, because the
search also scans the provenance columns and the file name `q.xlsx`
contains `q`. -/
theorem C2_counterexample :
    specOccurrenceCount "q"
        [⟨"q.xlsx", Except.ok [Except.ok ⟨"S", ["a"],
          [[Val.str "q"], [Val.str "z"]]⟩]⟩] = 1 ∧
    aggregate_price_lists "P"
        [⟨"q.xlsx", Except.ok [Except.ok ⟨"S", ["a"],
          [[Val.str "q"], [Val.str "z"]]⟩]⟩] =
      AggResult.output
        ⟨["source_file", "sheet_name", "row_number", "a"],
         [[Val.str "q.xlsx", Val.str "S", Val.num 2, Val.str "q"],
          [Val.str "q.xlsx", Val.str "S", Val.num 3, Val.str "z"]]⟩
        "A total of 2 rows have been written." ∧
    (searchRows "q"
        ⟨["source_file", "sheet_name", "row_number", "a"],
         [[Val.str "q.xlsx", Val.str "S", Val.num 2, Val.str "q"],
          [Val.str "q.xlsx", Val.str "S", Val.num 3, Val.str "z"]]⟩).length = 2 :=
  ⟨rfl, rfl, rfl⟩

/-- C2 (amended): if aggregation succeeds and the regex-literal query occurs,
case-insensitively, in the text rendering of exactly one cell of the
aggregated table — that unique cell lying in a payload column `c₀` of data
row `i₀` of readable sheet `s₀` of file `fn₀` — then the search returns
exactly that one row, and the row's provenance fields are the file's base
name, the sheet's name, and the 1-based original row number `i₀ + 2`. -/
theorem C2_roundtrip (p sf q fn₀ : String) (contents : List XFile) (t : Frame) (m : String)
    (s₀ : Sheet) (i₀ : Nat) (r₀ : List Val) (c₀ : String)
    (hlit : isLiteralPattern q = true)
    (hagg : aggregate_price_lists p contents = AggResult.output t m)
    (hmem : (fn₀, s₀) ∈ processedSheets contents)
    (hrow : (normRows s₀)[i₀]? = some r₀)
    (hc : c₀ ∈ s₀.header)
    (hnp : provNames.contains c₀ = false)
    (hmatch : cellMatches q (rowVal s₀.header r₀ c₀) = true)
    (huniq : (t.rows.flatMap (fun r => r.filter (cellMatches q))).length = 1) :
    search_price_list q sf (some (Except.ok t)) =
      SearchOutcome.results [(aggCols contents).map (taggedVal fn₀ s₀ i₀ r₀)] ∧
    rowVal t.cols ((aggCols contents).map (taggedVal fn₀ s₀ i₀ r₀)) "source_file" =
      Val.str fn₀ ∧
    rowVal t.cols ((aggCols contents).map (taggedVal fn₀ s₀ i₀ r₀)) "sheet_name" =
      Val.str s₀.name ∧
    rowVal t.cols ((aggCols contents).map (taggedVal fn₀ s₀ i₀ r₀)) "row_number" =
      Val.num ((i₀ : Int) + 2) := by
  obtain ⟨hcols, _⟩ := aggregate_output_spec p contents t m hagg
  have hnmem : ¬ c₀ ∈ provNames := (contains_false_iff _ _).mp hnp
  have hne1 : ¬ c₀ = "source_file" := fun he => hnmem (by rw [he]; decide)
  have hne2 : ¬ c₀ = "sheet_name" := fun he => hnmem (by rw [he]; decide)
  have hne3 : ¬ c₀ = "row_number" := fun he => hnmem (by rw [he]; decide)
  have htv : taggedVal fn₀ s₀ i₀ r₀ c₀ = rowVal s₀.header r₀ c₀ := by
    unfold taggedVal
    rw [if_neg hne1, if_neg hne2, if_neg hne3]
  have htagmem : tagFrame fn₀ s₀.name (readFrame s₀) ∈ allData contents := by
    rw [allData_eq]
    exact List.mem_map_of_mem _ hmem
  have hc₀agg : c₀ ∈ aggCols contents := by
    have hcu : c₀ ∈ unionCols (allData contents) := by
      apply mem_unionCols _ _ _ htagmem
      obtain ⟨e, he, _⟩ := tag_cols_ext fn₀ s₀.name (readFrame s₀)
      rw [he]
      exact List.mem_append.mpr (Or.inl hc)
    unfold aggCols
    refine List.mem_append.mpr (Or.inr (List.mem_filter.mpr ⟨hcu, ?_⟩))
    rw [hnp]
    rfl
  have hcellmem : taggedVal fn₀ s₀ i₀ r₀ c₀ ∈ (aggCols contents).map (taggedVal fn₀ s₀ i₀ r₀) :=
    List.mem_map_of_mem _ hc₀agg
  have hwne : ((aggCols contents).map (taggedVal fn₀ s₀ i₀ r₀)).filter (cellMatches q) ≠ [] := by
    intro hnil
    have hno := List.filter_eq_nil_iff.mp hnil _ hcellmem
    rw [htv] at hno
    exact hno hmatch
  have hrmem : (aggCols contents).map (taggedVal fn₀ s₀ i₀ r₀) ∈ t.rows :=
    agg_row_mem p contents t m fn₀ s₀ i₀ r₀ hagg hmem hrow
  have hfu : t.rows.filter (fun r => !(r.filter (cellMatches q)).isEmpty) =
      [(aggCols contents).map (taggedVal fn₀ s₀ i₀ r₀)] :=
    filter_unique t.rows (fun r => r.filter (cellMatches q)) _ hrmem hwne huniq
  have hsr : searchRows q t = [(aggCols contents).map (taggedVal fn₀ s₀ i₀ r₀)] := by
    unfold searchRows
    rw [← hfu]
    apply List.filter_congr
    intro r _
    exact any_eq_not_isEmpty_filter (cellMatches q) r
  obtain ⟨hp1, hp2, hp3⟩ := outRow_prov_lookup contents fn₀ s₀ i₀ r₀
  refine ⟨search_ok q sf t (literal_reCompiles q hlit) _ hsr (by intro hx; cases hx), ?_, ?_, ?_⟩
  · rw [hcols]
    exact hp1
  · rw [hcols]
    exact hp2
  · rw [hcols]
    exact hp3

/-- C2 witness: the amended round-trip theorem applied to the spec's own
scenario — one file `a.xlsx`, one sheet `Sheet1` with header `[item, price]`
and the single data row `[bolt, 10]` — for the query `bolt`. -/
theorem C2_roundtrip_witness :
    search_price_list "bolt" "aggregated_pricelist.xlsx"
        (some (Except.ok
          ⟨["source_file", "sheet_name", "row_number", "item", "price"],
           [[Val.str "a.xlsx", Val.str "Sheet1", Val.num 2, Val.str "bolt", Val.num 10]]⟩)) =
      SearchOutcome.results
        [(aggCols [⟨"a.xlsx", Except.ok [Except.ok ⟨"Sheet1", ["item", "price"],
            [[Val.str "bolt", Val.num 10]]⟩]⟩]).map
          (taggedVal "a.xlsx" ⟨"Sheet1", ["item", "price"], [[Val.str "bolt", Val.num 10]]⟩ 0
            [Val.str "bolt", Val.num 10])] ∧
    rowVal
        (⟨["source_file", "sheet_name", "row_number", "item", "price"],
          [[Val.str "a.xlsx", Val.str "Sheet1", Val.num 2, Val.str "bolt",
            Val.num 10]]⟩ : Frame).cols
        ((aggCols [⟨"a.xlsx", Except.ok [Except.ok ⟨"Sheet1", ["item", "price"],
            [[Val.str "bolt", Val.num 10]]⟩]⟩]).map
          (taggedVal "a.xlsx" ⟨"Sheet1", ["item", "price"], [[Val.str "bolt", Val.num 10]]⟩ 0
            [Val.str "bolt", Val.num 10])) "source_file" = Val.str "a.xlsx" ∧
    rowVal
        (⟨["source_file", "sheet_name", "row_number", "item", "price"],
          [[Val.str "a.xlsx", Val.str "Sheet1", Val.num 2, Val.str "bolt",
            Val.num 10]]⟩ : Frame).cols
        ((aggCols [⟨"a.xlsx", Except.ok [Except.ok ⟨"Sheet1", ["item", "price"],
            [[Val.str "bolt", Val.num 10]]⟩]⟩]).map
          (taggedVal "a.xlsx" ⟨"Sheet1", ["item", "price"], [[Val.str "bolt", Val.num 10]]⟩ 0
            [Val.str "bolt", Val.num 10])) "sheet_name" = Val.str "Sheet1" ∧
    rowVal
        (⟨["source_file", "sheet_name", "row_number", "item", "price"],
          [[Val.str "a.xlsx", Val.str "Sheet1", Val.num 2, Val.str "bolt",
            Val.num 10]]⟩ : Frame).cols
        ((aggCols [⟨"a.xlsx", Except.ok [Except.ok ⟨"Sheet1", ["item", "price"],
            [[Val.str "bolt", Val.num 10]]⟩]⟩]).map
          (taggedVal "a.xlsx" ⟨"Sheet1", ["item", "price"], [[Val.str "bolt", Val.num 10]]⟩ 0
            [Val.str "bolt", Val.num 10])) "row_number" = Val.num ((0 : Int) + 2) :=
  C2_roundtrip "Prices" "aggregated_pricelist.xlsx" "bolt" "a.xlsx"
    [⟨"a.xlsx", Except.ok [Except.ok ⟨"Sheet1", ["item", "price"],
      [[Val.str "bolt", Val.num 10]]⟩]⟩]
    ⟨["source_file", "sheet_name", "row_number", "item", "price"],
     [[Val.str "a.xlsx", Val.str "Sheet1", Val.num 2, Val.str "bolt", Val.num 10]]⟩
    "A total of 1 rows have been written."
    ⟨"Sheet1", ["item", "price"], [[Val.str "bolt", Val.num 10]]⟩ 0
    [Val.str "bolt", Val.num 10] "item"
    (by decide) rfl (List.mem_singleton.mpr rfl) rfl (by decide) rfl rfl rfl

/-- C3 counterexample: the file `a.XLSX` has a spreadsheet extension in
upper-case letter-casing, but glob matching is case-sensitive and none of the
patterns `*.xlsx`, `*.xls`, `*.XLS` matches it, so discovery excludes it. -/
theorem C3_counterexample :
    hasSpreadsheetExtCI "a.XLSX" = true ∧
    discoverFiles [⟨"a.XLSX", Except.ok []⟩] = [] :=
  ⟨rfl, rfl⟩

/-- C3 (amended): discovery includes exactly the files of the source
directory whose names end, with exact letter-casing, in `.xlsx`, `.xls`, or
`.XLS` — the three case-sensitive glob patterns of the source. -/
theorem C3_exact_case (contents : List XFile) (f : XFile) :
    f ∈ discoverFiles contents ↔
      f ∈ contents ∧
        (endsIn f.name ".xlsx" || endsIn f.name ".xls" || endsIn f.name ".XLS") = true := by
  unfold discoverFiles
  constructor
  · intro h
    rcases List.mem_append.mp h with h12 | h3
    · rcases List.mem_append.mp h12 with h1 | h2
      · obtain ⟨hm, hp⟩ := List.mem_filter.mp h1
        exact ⟨hm, by simp [hp]⟩
      · obtain ⟨hm, hp⟩ := List.mem_filter.mp h2
        exact ⟨hm, by simp [hp]⟩
    · obtain ⟨hm, hp⟩ := List.mem_filter.mp h3
      exact ⟨hm, by simp [hp]⟩
  · rintro ⟨hm, hp⟩
    rw [Bool.or_eq_true, Bool.or_eq_true] at hp
    rcases hp with (h1 | h2) | h3
    · exact List.mem_append.mpr (Or.inl (List.mem_append.mpr
        (Or.inl (List.mem_filter.mpr ⟨hm, h1⟩))))
    · exact List.mem_append.mpr (Or.inl (List.mem_append.mpr
        (Or.inr (List.mem_filter.mpr ⟨hm, h2⟩))))
    · exact List.mem_append.mpr (Or.inr (List.mem_filter.mpr ⟨hm, h3⟩))

/-- C3 witness: the amended discovery theorem applied to a directory holding
the single file `b.xls`, whose exact-case extension is matched. -/
theorem C3_exact_case_witness :
    (⟨"b.xls", Except.ok []⟩ : XFile) ∈ discoverFiles [⟨"b.xls", Except.ok []⟩] :=
  (C3_exact_case [⟨"b.xls", Except.ok []⟩] ⟨"b.xls", Except.ok []⟩).mpr
    ⟨List.mem_singleton.mpr rfl, rfl⟩

/-- C4: the claim states the search never ends in a raw unhandled fault for a
bad query.  The query is passed to `str.contains` as a regular expression,
so the query `(` makes `re.compile` raise `re.error`, which escapes the
matching step uncaught and terminates the process with a traceback and a
non-zero status. -/
theorem C4_bad_query_uncaught :
    search_price_list "(" "aggregated_pricelist.xlsx"
        (some (Except.ok ⟨["item"], [[Val.str "bolt"]]⟩)) =
      SearchOutcome.uncaughtRegexError "re.error: unbalanced parenthesis in pattern (" ∧
    searchExitCode (search_price_list "(" "aggregated_pricelist.xlsx"
        (some (Except.ok ⟨["item"], [[Val.str "bolt"]]⟩))) = 1 ∧
    isLiteralPattern "(" = false :=
  ⟨rfl, rfl, rfl⟩

/-- C5: for every successful aggregation, the row-number field of the output
rows is, sheet by sheet in processing order, the row's 0-based position in
its sheet's data rows plus 2 — the 1-based original row counting the header
as row 1. -/
theorem C5_row_number_tagging (p : String) (contents : List XFile) (t : Frame) (m : String)
    (h : aggregate_price_lists p contents = AggResult.output t m) :
    t.rows.map (fun r => rowVal t.cols r "row_number") =
      (processedSheets contents).flatMap
        (fun fs => mapWithIdx (fun i _ => Val.num ((i : Int) + 2)) (normRows fs.2)) := by
  obtain ⟨hcols, hrows⟩ := aggregate_output_spec p contents t m h
  rw [hrows, hcols, List.map_flatMap]
  refine congrArg (List.flatMap _) (funext fun fs => ?_)
  apply List.ext_getElem?
  intro i
  rw [List.getElem?_map, mapWithIdx_getElem?, mapWithIdx_getElem?]
  cases hri : (normRows fs.2)[i]? with
  | none => rfl
  | some r =>
    show some (rowVal (aggCols contents)
        ((aggCols contents).map (taggedVal fs.1 fs.2 i r)) "row_number") =
      some (Val.num ((i : Int) + 2))
    rw [rowVal_map_self _ _ _ (prov_mem_aggCols contents _ (by decide))]
    rfl

/-- C5 witness: the row-number theorem applied to a directory with one file
of one sheet holding two data rows, which are tagged 2 and 3. -/
theorem C5_row_number_witness :
    (⟨["source_file", "sheet_name", "row_number", "a"],
      [[Val.str "q.xlsx", Val.str "T", Val.num 2, Val.str "u"],
       [Val.str "q.xlsx", Val.str "T", Val.num 3, Val.str "v"]]⟩ : Frame).rows.map
        (fun r => rowVal (⟨["source_file", "sheet_name", "row_number", "a"],
          [[Val.str "q.xlsx", Val.str "T", Val.num 2, Val.str "u"],
           [Val.str "q.xlsx", Val.str "T", Val.num 3, Val.str "v"]]⟩ : Frame).cols
          r "row_number") =
      (processedSheets [⟨"q.xlsx", Except.ok [Except.ok ⟨"T", ["a"],
          [[Val.str "u"], [Val.str "v"]]⟩]⟩]).flatMap
        (fun fs => mapWithIdx (fun i _ => Val.num ((i : Int) + 2)) (normRows fs.2)) :=
  C5_row_number_tagging "Prices"
    [⟨"q.xlsx", Except.ok [Except.ok ⟨"T", ["a"], [[Val.str "u"], [Val.str "v"]]⟩]⟩]
    ⟨["source_file", "sheet_name", "row_number", "a"],
     [[Val.str "q.xlsx", Val.str "T", Val.num 2, Val.str "u"],
      [Val.str "q.xlsx", Val.str "T", Val.num 3, Val.str "v"]]⟩
    "A total of 2 rows have been written." rfl

/-- C6: for every successful aggregation, the output column list is the
three provenance columns in their fixed order followed by the union of the
processed sheets' payload columns in first-encountered order. -/
theorem C6_column_order (p : String) (contents : List XFile) (t : Frame) (m : String)
    (h : aggregate_price_lists p contents = AggResult.output t m) :
    t.cols = provNames ++ payloadCols contents := by
  obtain ⟨hcols, _⟩ := aggregate_output_spec p contents t m h
  rw [hcols, aggCols_eq_payload]

/-- C6 witness: the column-order theorem applied to two files whose sheets
have the differing headers `[b, a]` and `[a, c]`; the output columns are the
provenance columns followed by `b, a, c` in first-seen order. -/
theorem C6_column_order_witness :
    (⟨["source_file", "sheet_name", "row_number", "b", "a", "c"],
      [[Val.str "a.xlsx", Val.str "S1", Val.num 2, Val.str "1", Val.str "2", Val.null],
       [Val.str "c.xlsx", Val.str "S2", Val.num 2, Val.null, Val.str "3",
        Val.str "4"]]⟩ : Frame).cols =
      provNames ++ payloadCols
        [⟨"a.xlsx", Except.ok [Except.ok ⟨"S1", ["b", "a"],
          [[Val.str "1", Val.str "2"]]⟩]⟩,
         ⟨"c.xlsx", Except.ok [Except.ok ⟨"S2", ["a", "c"],
          [[Val.str "3", Val.str "4"]]⟩]⟩] :=
  C6_column_order "Prices"
    [⟨"a.xlsx", Except.ok [Except.ok ⟨"S1", ["b", "a"], [[Val.str "1", Val.str "2"]]⟩]⟩,
     ⟨"c.xlsx", Except.ok [Except.ok ⟨"S2", ["a", "c"], [[Val.str "3", Val.str "4"]]⟩]⟩]
    ⟨["source_file", "sheet_name", "row_number", "b", "a", "c"],
     [[Val.str "a.xlsx", Val.str "S1", Val.num 2, Val.str "1", Val.str "2", Val.null],
      [Val.str "c.xlsx", Val.str "S2", Val.num 2, Val.null, Val.str "3", Val.str "4"]]⟩
    "A total of 2 rows have been written." rfl

/-- C7 counterexample: the claim's parenthetical says a payload cell is null
exactly where the column is absent from the row's source sheet; but the
sheet of `a.xlsx` has the column `b` in its header with an empty cell, and
the aggregated row is null at `b` although `b` is present in the sheet. -/
theorem C7_counterexample :
    aggregate_price_lists "P"
        [⟨"a.xlsx", Except.ok [Except.ok ⟨"S", ["a", "b"],
          [[Val.str "x", Val.null]]⟩]⟩] =
      AggResult.output
        ⟨["source_file", "sheet_name", "row_number", "a", "b"],
         [[Val.str "a.xlsx", Val.str "S", Val.num 2, Val.str "x", Val.null]]⟩
        "A total of 1 rows have been written." ∧
    rowVal ["source_file", "sheet_name", "row_number", "a", "b"]
        [Val.str "a.xlsx", Val.str "S", Val.num 2, Val.str "x", Val.null] "b" = Val.null ∧
    "b" ∈ (⟨"S", ["a", "b"], [[Val.str "x", Val.null]]⟩ : Sheet).header :=
  ⟨rfl, rfl, by decide⟩

/-- C7 (amended): every aggregated row originates from a data row of a
processed sheet; its three provenance fields carry that origin's file name,
sheet name and 1-based row number and are never null, and every
non-provenance column carries the source sheet's own cell for that row — so
a payload cell is null exactly when the column is absent from the row's
source sheet or the source cell is itself empty. -/
theorem C7_provenance_invariant (p : String) (contents : List XFile) (t : Frame) (m : String)
    (h : aggregate_price_lists p contents = AggResult.output t m) :
    ∀ row ∈ t.rows, ∃ fs ∈ processedSheets contents, ∃ i r,
      (normRows fs.2)[i]? = some r ∧
      row = (aggCols contents).map (taggedVal fs.1 fs.2 i r) ∧
      rowVal t.cols row "source_file" = Val.str fs.1 ∧
      rowVal t.cols row "sheet_name" = Val.str fs.2.name ∧
      rowVal t.cols row "row_number" = Val.num ((i : Int) + 2) ∧
      rowVal t.cols row "source_file" ≠ Val.null ∧
      rowVal t.cols row "sheet_name" ≠ Val.null ∧
      rowVal t.cols row "row_number" ≠ Val.null ∧
      ∀ c, provNames.contains c = false →
        rowVal t.cols row c = rowVal fs.2.header r c := by
  obtain ⟨hcols, hrows⟩ := aggregate_output_spec p contents t m h
  intro row hrowm
  rw [hrows] at hrowm
  obtain ⟨fs, hfs, hrow2⟩ := List.mem_flatMap.mp hrowm
  obtain ⟨i, r, hir, hreq⟩ := mem_mapWithIdx _ _ _ hrow2
  subst hreq
  obtain ⟨hp1, hp2, hp3⟩ := outRow_prov_lookup contents fs.1 fs.2 i r
  refine ⟨fs, hfs, i, r, hir, rfl, ?_, ?_, ?_, ?_, ?_, ?_, ?_⟩
  · rw [hcols]
    exact hp1
  · rw [hcols]
    exact hp2
  · rw [hcols]
    exact hp3
  · rw [hcols, hp1]
    intro hx
    cases hx
  · rw [hcols, hp2]
    intro hx
    cases hx
  · rw [hcols, hp3]
    intro hx
    cases hx
  · intro c hnp
    have hnmem : ¬ c ∈ provNames := (contains_false_iff _ _).mp hnp
    have hne1 : ¬ c = "source_file" := fun he => hnmem (by rw [he]; decide)
    have hne2 : ¬ c = "sheet_name" := fun he => hnmem (by rw [he]; decide)
    have hne3 : ¬ c = "row_number" := fun he => hnmem (by rw [he]; decide)
    rw [hcols]
    by_cases hca : c ∈ aggCols contents
    · rw [rowVal_map_self _ _ _ hca]
      unfold taggedVal
      rw [if_neg hne1, if_neg hne2, if_neg hne3]
    · rw [rowVal_not_mem _ _ _ hca]
      by_cases hch : c ∈ fs.2.header
      · exfalso
        apply hca
        have htagmem : tagFrame fs.1 fs.2.name (readFrame fs.2) ∈ allData contents := by
          rw [allData_eq]
          exact List.mem_map_of_mem _ hfs
        have hcu : c ∈ unionCols (allData contents) := by
          apply mem_unionCols _ _ _ htagmem
          obtain ⟨e, he, _⟩ := tag_cols_ext fs.1 fs.2.name (readFrame fs.2)
          rw [he]
          exact List.mem_append.mpr (Or.inl hch)
        unfold aggCols
        refine List.mem_append.mpr (Or.inr (List.mem_filter.mpr ⟨hcu, ?_⟩))
        rw [hnp]
        rfl
      · rw [rowVal_not_mem _ _ _ hch]

/-- C7 witness: the amended invariant applied to the single aggregated row
of a one-file directory whose sheet has a present-but-empty cell in column
`b`. -/
theorem C7_provenance_witness :
    ∃ fs ∈ processedSheets
        [⟨"a.xlsx", Except.ok [Except.ok ⟨"S", ["a", "b"],
          [[Val.str "x", Val.null]]⟩]⟩],
      ∃ i r, (normRows fs.2)[i]? = some r ∧
      [Val.str "a.xlsx", Val.str "S", Val.num 2, Val.str "x", Val.null] =
        (aggCols [⟨"a.xlsx", Except.ok [Except.ok ⟨"S", ["a", "b"],
          [[Val.str "x", Val.null]]⟩]⟩]).map (taggedVal fs.1 fs.2 i r) ∧
      rowVal (⟨["source_file", "sheet_name", "row_number", "a", "b"],
        [[Val.str "a.xlsx", Val.str "S", Val.num 2, Val.str "x", Val.null]]⟩ : Frame).cols
        [Val.str "a.xlsx", Val.str "S", Val.num 2, Val.str "x", Val.null]
        "source_file" = Val.str fs.1 ∧
      rowVal (⟨["source_file", "sheet_name", "row_number", "a", "b"],
        [[Val.str "a.xlsx", Val.str "S", Val.num 2, Val.str "x", Val.null]]⟩ : Frame).cols
        [Val.str "a.xlsx", Val.str "S", Val.num 2, Val.str "x", Val.null]
        "sheet_name" = Val.str fs.2.name ∧
      rowVal (⟨["source_file", "sheet_name", "row_number", "a", "b"],
        [[Val.str "a.xlsx", Val.str "S", Val.num 2, Val.str "x", Val.null]]⟩ : Frame).cols
        [Val.str "a.xlsx", Val.str "S", Val.num 2, Val.str "x", Val.null]
        "row_number" = Val.num ((i : Int) + 2) ∧
      rowVal (⟨["source_file", "sheet_name", "row_number", "a", "b"],
        [[Val.str "a.xlsx", Val.str "S", Val.num 2, Val.str "x", Val.null]]⟩ : Frame).cols
        [Val.str "a.xlsx", Val.str "S", Val.num 2, Val.str "x", Val.null]
        "source_file" ≠ Val.null ∧
      rowVal (⟨["source_file", "sheet_name", "row_number", "a", "b"],
        [[Val.str "a.xlsx", Val.str "S", Val.num 2, Val.str "x", Val.null]]⟩ : Frame).cols
        [Val.str "a.xlsx", Val.str "S", Val.num 2, Val.str "x", Val.null]
        "sheet_name" ≠ Val.null ∧
      rowVal (⟨["source_file", "sheet_name", "row_number", "a", "b"],
        [[Val.str "a.xlsx", Val.str "S", Val.num 2, Val.str "x", Val.null]]⟩ : Frame).cols
        [Val.str "a.xlsx", Val.str "S", Val.num 2, Val.str "x", Val.null]
        "row_number" ≠ Val.null ∧
      ∀ c, provNames.contains c = false →
        rowVal (⟨["source_file", "sheet_name", "row_number", "a", "b"],
          [[Val.str "a.xlsx", Val.str "S", Val.num 2, Val.str "x", Val.null]]⟩ : Frame).cols
          [Val.str "a.xlsx", Val.str "S", Val.num 2, Val.str "x", Val.null] c =
          rowVal fs.2.header r c :=
  C7_provenance_invariant "P"
    [⟨"a.xlsx", Except.ok [Except.ok ⟨"S", ["a", "b"], [[Val.str "x", Val.null]]⟩]⟩]
    ⟨["source_file", "sheet_name", "row_number", "a", "b"],
     [[Val.str "a.xlsx", Val.str "S", Val.num 2, Val.str "x", Val.null]]⟩
    "A total of 1 rows have been written." rfl
    [Val.str "a.xlsx", Val.str "S", Val.num 2, Val.str "x", Val.null]
    (List.mem_singleton.mpr rfl)

/-- C8: when the aggregation extracts no data — either because the directory
holds no spreadsheet files or because zero rows were extracted — the script
prints the corresponding informational message, writes no output table, and
the process exits with code 0. -/
theorem C8_empty_input_graceful (p : String) (contents : List XFile)
    (h : allData contents = []) :
    (aggregateScript true p contents).1 = 0 ∧
    (∀ t m, (aggregateScript true p contents).2 ≠ some (AggResult.output t m)) ∧
    ((discoverFiles contents = [] ∧
        (aggregateScript true p contents).2 =
          some (AggResult.noFiles ("No Excel files found in the directory: " ++ p))) ∨
      (discoverFiles contents ≠ [] ∧
        (aggregateScript true p contents).2 =
          some (AggResult.noData "No data was extracted from any of the files."))) := by
  have hs : aggregateScript true p contents = (0, some (aggregate_price_lists p contents)) := rfl
  by_cases hd : (discoverFiles contents).isEmpty = true
  · have hagg : aggregate_price_lists p contents =
        AggResult.noFiles ("No Excel files found in the directory: " ++ p) := by
      unfold aggregate_price_lists
      rw [if_pos hd]
    refine ⟨rfl, ?_, Or.inl ⟨List.isEmpty_iff.mp hd, ?_⟩⟩
    · intro t m hx
      rw [hs, hagg] at hx
      simp at hx
    · rw [hs, hagg]
  · have hde : (allData contents).isEmpty = true := by
      rw [h]
      rfl
    have hagg : aggregate_price_lists p contents =
        AggResult.noData "No data was extracted from any of the files." := by
      unfold aggregate_price_lists
      rw [if_neg hd, if_pos hde]
    refine ⟨rfl, ?_, Or.inr ⟨fun he => hd (by rw [he]; rfl), ?_⟩⟩
    · intro t m hx
      rw [hs, hagg] at hx
      simp at hx
    · rw [hs, hagg]

/-- C8 witness: the graceful no-op theorem applied to an empty directory. -/
theorem C8_empty_input_witness :
    (aggregateScript true "Prices" []).1 = 0 ∧
    (∀ t m, (aggregateScript true "Prices" []).2 ≠ some (AggResult.output t m)) ∧
    ((discoverFiles [] = [] ∧
        (aggregateScript true "Prices" []).2 =
          some (AggResult.noFiles ("No Excel files found in the directory: " ++ "Prices"))) ∨
      (discoverFiles [] ≠ [] ∧
        (aggregateScript true "Prices" []).2 =
          some (AggResult.noData "No data was extracted from any of the files."))) :=
  C8_empty_input_graceful "Prices" [] rfl

/-- C9: for every query, invoking Search when the aggregated file does not
exist yields the missing-prerequisite messages naming the file and telling
the user to run `aggregate_prices.py` first, exits with status 1, and never
reaches the matching step (the outcome is neither a result list nor the
no-results message). -/
theorem C9_missing_aggregated_file (q sf : String) :
    search_price_list q sf none =
      SearchOutcome.missingFile
        ["Error: The aggregated price list file \x27" ++ sf ++ "\x27 was not found.",
         "Please run the \x27aggregate_prices.py\x27 script first."] ∧
    searchExitCode (search_price_list q sf none) = 1 ∧
    (∀ rows, search_price_list q sf none ≠ SearchOutcome.results rows) ∧
    search_price_list q sf none ≠ SearchOutcome.noResults := by
  refine ⟨rfl, rfl, ?_, ?_⟩
  · intro rows hx
    have hx' : SearchOutcome.missingFile
        ["Error: The aggregated price list file \x27" ++ sf ++ "\x27 was not found.",
         "Please run the \x27aggregate_prices.py\x27 script first."] =
        SearchOutcome.results rows := hx
    cases hx'
  · intro hx
    have hx' : SearchOutcome.missingFile
        ["Error: The aggregated price list file \x27" ++ sf ++ "\x27 was not found.",
         "Please run the \x27aggregate_prices.py\x27 script first."] =
        SearchOutcome.noResults := hx
    cases hx'

/-- C10: if a processed sheet's own header literally contains a provenance
column name, the aggregator overwrites that column: the output row built
from any data row of that sheet carries the provenance values — file base
name, sheet name, and original row number — at the three provenance
columns, regardless of the sheet's original cell values there. -/
theorem C10_provenance_overwrite (p : String) (contents : List XFile) (t : Frame) (m : String)
    (fn : String) (s : Sheet) (i : Nat) (r : List Val)
    (hagg : aggregate_price_lists p contents = AggResult.output t m)
    (hmem : (fn, s) ∈ processedSheets contents)
    (hhdr : "source_file" ∈ s.header ∨ "sheet_name" ∈ s.header ∨ "row_number" ∈ s.header)
    (hrow : (normRows s)[i]? = some r) :
    (aggCols contents).map (taggedVal fn s i r) ∈ t.rows ∧
    rowVal t.cols ((aggCols contents).map (taggedVal fn s i r)) "source_file" = Val.str fn ∧
    rowVal t.cols ((aggCols contents).map (taggedVal fn s i r)) "sheet_name" = Val.str s.name ∧
    rowVal t.cols ((aggCols contents).map (taggedVal fn s i r)) "row_number" =
      Val.num ((i : Int) + 2) := by
  obtain ⟨hcols, _⟩ := aggregate_output_spec p contents t m hagg
  obtain ⟨hp1, hp2, hp3⟩ := outRow_prov_lookup contents fn s i r
  refine ⟨agg_row_mem p contents t m fn s i r hagg hmem hrow, ?_, ?_, ?_⟩
  · rw [hcols]
    exact hp1
  · rw [hcols]
    exact hp2
  · rw [hcols]
    exact hp3

/-- C10 witness: a sheet whose header contains a column literally named
`source_file` holding the value `ORIG`; the aggregated row carries the file
name `a.xlsx` there, not `ORIG`. -/
theorem C10_provenance_overwrite_witness :
    (aggCols [⟨"a.xlsx", Except.ok [Except.ok ⟨"S", ["source_file", "x"],
        [[Val.str "ORIG", Val.str "y"]]⟩]⟩]).map
      (taggedVal "a.xlsx" ⟨"S", ["source_file", "x"], [[Val.str "ORIG", Val.str "y"]]⟩ 0
        [Val.str "ORIG", Val.str "y"]) ∈
      (⟨["source_file", "sheet_name", "row_number", "x"],
        [[Val.str "a.xlsx", Val.str "S", Val.num 2, Val.str "y"]]⟩ : Frame).rows ∧
    rowVal (⟨["source_file", "sheet_name", "row_number", "x"],
        [[Val.str "a.xlsx", Val.str "S", Val.num 2, Val.str "y"]]⟩ : Frame).cols
      ((aggCols [⟨"a.xlsx", Except.ok [Except.ok ⟨"S", ["source_file", "x"],
          [[Val.str "ORIG", Val.str "y"]]⟩]⟩]).map
        (taggedVal "a.xlsx" ⟨"S", ["source_file", "x"], [[Val.str "ORIG", Val.str "y"]]⟩ 0
          [Val.str "ORIG", Val.str "y"])) "source_file" = Val.str "a.xlsx" ∧
    rowVal (⟨["source_file", "sheet_name", "row_number", "x"],
        [[Val.str "a.xlsx", Val.str "S", Val.num 2, Val.str "y"]]⟩ : Frame).cols
      ((aggCols [⟨"a.xlsx", Except.ok [Except.ok ⟨"S", ["source_file", "x"],
          [[Val.str "ORIG", Val.str "y"]]⟩]⟩]).map
        (taggedVal "a.xlsx" ⟨"S", ["source_file", "x"], [[Val.str "ORIG", Val.str "y"]]⟩ 0
          [Val.str "ORIG", Val.str "y"])) "sheet_name" =
      Val.str (⟨"S", ["source_file", "x"], [[Val.str "ORIG", Val.str "y"]]⟩ : Sheet).name ∧
    rowVal (⟨["source_file", "sheet_name", "row_number", "x"],
        [[Val.str "a.xlsx", Val.str "S", Val.num 2, Val.str "y"]]⟩ : Frame).cols
      ((aggCols [⟨"a.xlsx", Except.ok [Except.ok ⟨"S", ["source_file", "x"],
          [[Val.str "ORIG", Val.str "y"]]⟩]⟩]).map
        (taggedVal "a.xlsx" ⟨"S", ["source_file", "x"], [[Val.str "ORIG", Val.str "y"]]⟩ 0
          [Val.str "ORIG", Val.str "y"])) "row_number" = Val.num ((0 : Int) + 2) :=
  C10_provenance_overwrite "P"
    [⟨"a.xlsx", Except.ok [Except.ok ⟨"S", ["source_file", "x"],
      [[Val.str "ORIG", Val.str "y"]]⟩]⟩]
    ⟨["source_file", "sheet_name", "row_number", "x"],
     [[Val.str "a.xlsx", Val.str "S", Val.num 2, Val.str "y"]]⟩
    "A total of 1 rows have been written."
    "a.xlsx" ⟨"S", ["source_file", "x"], [[Val.str "ORIG", Val.str "y"]]⟩ 0
    [Val.str "ORIG", Val.str "y"]
    rfl (List.mem_singleton.mpr rfl) (Or.inl (by decide)) rfl
